import Mathlib

/-!
Verification of the CASP14 predictor benchmarking pipeline
(`python_codes/casp14_predictor_test.py`).

The script reconciles two per-residue score streams (LoCoHD divergence
scores and pre-computed lDDT reference scores), computes a Spearman rank
correlation per prediction, and folds results into running accumulators
and a 2D joint histogram.

Python string operations are embedded by structurally recursive functions
over the character data of `String`, so that every definition is
executable and kernel-reducible.  All separators used by the script
(`"\n"`, `"\t"`, `"/"`) are single characters, matching Python
`str.split(sep)` semantics for a one-character separator.  Floating point
values are modelled exactly: score values are rationals, and the IEEE NaN
produced by degenerate statistics is modelled by `Option ℚ` with `none`
standing for NaN.
-/

deriving instance DecidableEq for Except

namespace Casp

/-- Python `str.split(sep)` for a one-character separator, on character
lists: splits at every occurrence of `sep`, keeping empty pieces, and
`"".split(sep) == [""]`.  `acc` holds the (reversed) current piece. -/
def splitCharAux (sep : Char) (acc : List Char) : List Char → List (List Char)
  | [] => [acc.reverse]
  | c :: rest =>
    if c = sep then acc.reverse :: splitCharAux sep [] rest
    else splitCharAux sep (c :: acc) rest

/-- Python `s.split(sep)` for a one-character separator `sep`. -/
def pySplit (s : String) (sep : Char) : List String :=
  (splitCharAux sep [] s.data).map (fun cs => String.mk cs)

/-- Python `s.startswith(pre)`. -/
def pyStartsWith (s pre : String) : Bool :=
  pre.data.isPrefixOf s.data

/-- Helper for `pyReplace`: `skip` counts characters still to be consumed
by an already-matched pattern occurrence, so the recursion stays
structural on the character list. -/
def replaceAux (pat rep : List Char) : ℕ → List Char → List Char
  | _ + 1, [] => []
  | skip + 1, _ :: rest => replaceAux pat rep skip rest
  | 0, [] => []
  | 0, c :: rest =>
    if pat.isPrefixOf (c :: rest) then
      rep ++ replaceAux pat rep (pat.length - 1) rest
    else
      c :: replaceAux pat rep 0 rest

/-- Python `s.replace(pat, rep)` for a non-empty pattern: replaces every
(left-to-right, non-overlapping) occurrence. -/
def pyReplace (s pat rep : String) : String :=
  String.mk (replaceAux pat.data rep.data 0 s.data)

/-- Helper for `strContains`. -/
def containsAux (pat : List Char) : List Char → Bool
  | [] => pat.isEmpty
  | c :: rest => pat.isPrefixOf (c :: rest) || containsAux pat rest

/-- Python `pat in s` (substring containment). -/
def strContains (s pat : String) : Bool :=
  pat.data.isEmpty || containsAux pat.data s.data

/-- Value of a list of decimal digit characters. -/
def natOfDigits (cs : List Char) : ℕ :=
  cs.foldl (fun a c => 10 * a + (c.toNat - 48)) 0

/-- Python `float(s)` restricted to plain decimal numerals (optional
leading minus sign, digits with at most one decimal point, at least one
digit) — the format of the lDDT score columns.  `none` models the
`ValueError` raised on any other input. -/
def parseDecimal? (s : String) : Option ℚ :=
  let neg : Bool := pyStartsWith s "-"
  let body : List Char := if neg then s.data.drop 1 else s.data
  let sgn : ℚ := if neg then -1 else 1
  match splitCharAux '.' [] body with
  | [w] =>
    if w ≠ [] ∧ w.all Char.isDigit then some (sgn * natOfDigits w) else none
  | [w, f] =>
    if (w ≠ [] ∨ f ≠ []) ∧ w.all Char.isDigit ∧ f.all Char.isDigit then
      some (sgn * ((natOfDigits w : ℚ) + (natOfDigits f : ℚ) / 10 ^ f.length))
    else none
  | _ => none

/-- Python `dict` insertion: an existing key is overwritten in place, a
new key is appended at the end.  Models the dict comprehensions of the
script; keys stay unique. -/
def dictInsert {α : Type} (d : List (String × α)) (k : String) (v : α) :
    List (String × α) :=
  if d.any (fun p => p.1 == k) then
    d.map (fun p => if p.1 == k then (k, v) else p)
  else d ++ [(k, v)]

/-- Python `dict` lookup, `none` when the key is absent (`KeyError`). -/
def dictGet? {α : Type} (d : List (String × α)) (k : String) : Option α :=
  (d.find? (fun p => p.1 == k)).map (fun p => p.2)

/-- The exceptions the script can raise while ingesting lDDT data:
`stopIteration` from the exhausted header-search generator (the
`FormatError` of the spec), `indexError` from out-of-range subscripts,
`valueError` from `float`, and `keyError` from dict lookups. -/
inductive PyErr : Type
  | stopIteration : PyErr
  | indexError : PyErr
  | valueError : PyErr
  | keyError : String → PyErr
deriving DecidableEq, Repr

/-- The header line searched for by `lddt_from_text` (line 38). -/
def headerText : String := "Chain\tResName\tResNum\tAsses.\tQ.Prob.\tScore"

/-- The predictor identifier (line 23). -/
def PREDICTOR_KEY : String := "TS480"

/-- One row of the dict comprehension on line 42 of the script, applied to
an already-tab-split line.  Python evaluates
`len(line) != 1 and line[5] != "-"`: a one-element split is skipped, a
split of 2–5 fields raises `IndexError` at `line[5]`, a `"-"` score is
skipped, and otherwise the entry `f"{line[0]}/{line[2]}-{line[1]}"
↦ float(line[5])` is inserted. -/
def procRow (acc : List (String × ℚ)) (line : List String) :
    Except PyErr (List (String × ℚ)) :=
  if line.length = 1 then .ok acc
  else if line.length < 6 then .error .indexError
  else if line.getD 5 "" = "-" then .ok acc
  else
    match parseDecimal? (line.getD 5 "") with
    | none => .error .valueError
    | some v =>
      .ok (dictInsert acc
        (line.getD 0 "" ++ "/" ++ line.getD 2 "" ++ "-" ++ line.getD 1 "") v)

/-- The whole dict comprehension of line 42, folded left-to-right from an
initial dict `acc`. -/
def procRows (acc : List (String × ℚ)) (rows : List (List String)) :
    Except PyErr (List (String × ℚ)) :=
  rows.foldlM procRow acc

/-- Embeds `lddt_from_text` (lines 35–43): split the text into lines, find the
first line starting with the header (a missing header raises
`StopIteration` from `next`), tab-split all following lines and build the
score dict. -/
def lddt_from_text (text : String) : Except PyErr (List (String × ℚ)) :=
  let lines := pySplit text '\n'
  match lines.findIdx? (fun line => pyStartsWith line headerText) with
  | none => .error .stopIteration
  | some start_idx =>
    procRows [] ((lines.drop (start_idx + 1)).map (fun line => pySplit line '\t'))

/-- Embeds `read_lddt_values` (lines 46–60) over an abstract tar archive given as
a list of `(member name, member text)` pairs: keep only the members whose
name contains `f"{structure_key}{PREDICTOR_KEY}_"` (line 51), parse each
kept member with `lddt_from_text`, and key the result by
`member.name.split("/")[2].replace(".lddt", "")` (line 56; fewer than
three `/`-separated parts raises `IndexError`). -/
def read_lddt_values (structure_key : String) (members : List (String × String)) :
    Except PyErr (List (String × List (String × ℚ))) :=
  (members.filter
      (fun m => strContains m.1 (structure_key ++ PREDICTOR_KEY ++ "_"))).foldlM
    (fun acc m => do
      let content ← lddt_from_text m.2
      let parts := pySplit m.1 '/'
      if parts.length < 3 then throw PyErr.indexError
      else pure (dictInsert acc (pyReplace (parts.getD 2 "") ".lddt" "") content))
    []

/-- A primitive atom template as produced by the external
`PrimitiveAssigner` collaborator and consumed by the script: a primitive
type, the source residue's chain id (`resi_id[2]`), residue number
(`resi_id[3][1]`) and residue name, and 3-D coordinates. -/
structure PrimitiveAtomTemplate : Type where
  primitive_type : String
  chain_id : String
  res_num : ℤ
  res_name : String
  coordinates : ℚ × ℚ × ℚ
deriving DecidableEq

/-- A primitive atom as consumed by the LoCoHD oracle: a primitive type,
an id string (the residue key), and coordinates. -/
structure PrimitiveAtom : Type where
  primitive_type : String
  id : String
  coordinates : ℚ × ℚ × ℚ
deriving DecidableEq

/-- Embeds `prat_to_pra` (lines 27–32): the canonical residue key is
`f"{resi_id[2]}/{resi_id[3][1]}-{resname}"`. -/
def prat_to_pra (prat : PrimitiveAtomTemplate) : PrimitiveAtom :=
  { primitive_type := prat.primitive_type
    id := prat.chain_id ++ "/" ++ toString prat.res_num ++ "-" ++ prat.res_name
    coordinates := prat.coordinates }

/-- The anchor list construction (line 141):
`[(idx, idx) for idx, prat in enumerate(true_pra_templates) if
prat.primitive_type == "Cent"]`. -/
def anchorsOf (templates : List PrimitiveAtomTemplate) : List (ℕ × ℕ) :=
  (templates.enum.filter (fun p => p.2.primitive_type == "Cent")).map
    (fun p => (p.1, p.1))

/-- The `np.histogram2d` bin assignment along one axis, in exact arithmetic:
with `B` uniform bins over `[lo, hi]`, a value `v` with `lo ≤ v < hi`
falls in bin `⌊(v-lo)/(hi-lo)*B⌋`, a value equal to `hi` falls in the
last bin (numpy's right-most bin is closed) and a value outside
`[lo, hi]` is not counted at all (`none`). -/
def histBin (lo hi : ℚ) (B : ℕ) (v : ℚ) : Option ℕ :=
  if v < lo ∨ hi < v then none
  else some (min (Int.toNat ⌊(v - lo) / (hi - lo) * B⌋) (B - 1))

/-- Bin index formula claimed by the spec:
`clamp(floor((v-lo)/(hi-lo)*B), 0, B-1)`, defined for every `v`. -/
def specBinClamp (lo hi : ℚ) (B : ℕ) (v : ℚ) : ℕ :=
  Int.toNat (min (max (⌊(v - lo) / (hi - lo) * B⌋) 0) ((B : ℤ) - 1))

/-- The joint bin of one `(x, y)` sample of `np.histogram2d`: counted only
when both coordinates are in range. -/
def binPair (lox hix loy hiy : ℚ) (B : ℕ) (x y : ℚ) : Option (ℕ × ℕ) :=
  match histBin lox hix B x, histBin loy hiy B y with
  | some i, some j => some (i, j)
  | _, _ => none

/-- Embeds `np.histogram2d(xs, ys, bins=B, range=[[lox,hix],[loy,hiy]])` as a
grid of counts: cell `(i, j)` counts the samples assigned to that joint
bin. -/
def hist2d (lox hix loy hiy : ℚ) (B : ℕ) (xs ys : List ℚ) (i j : ℕ) : ℕ :=
  ((xs.zip ys).filter (fun p => binPair lox hix loy hiy B p.1 p.2 == some (i, j))).length

/-- Total count of a `B × B` histogram grid. -/
def histTotal (B : ℕ) (h : ℕ → ℕ → ℕ) : ℕ :=
  ∑ i ∈ Finset.range B, ∑ j ∈ Finset.range B, h i j

/-- The histogram range of the script (line 124): LoCoHD scores over
`[0, 0.5]`, lDDT scores over `[0, 1]`. -/
def driverHist (xs ys : List ℚ) (i j : ℕ) : ℕ :=
  hist2d 0 (1/2) 0 1 100 xs ys i j

/-- A float value: `none` models IEEE NaN, `some q` an (exactly
represented) numeric value. -/
abbrev FVal : Type := Option ℚ

/-- Insert into a sorted list (ascending). -/
def insertSorted (x : ℚ) : List ℚ → List ℚ
  | [] => [x]
  | y :: ys => if x ≤ y then x :: y :: ys else y :: insertSorted x ys

/-- Sort ascending (insertion sort; the algorithm is irrelevant, only the
sorted order matters for the median). -/
def sortQ (l : List ℚ) : List ℚ :=
  l.foldr insertSorted []

/-- The median of a non-empty list, as `np.median` computes it: the middle
element of the sorted list for odd length, the average of the two middle
elements for even length. -/
def medianQ (l : List ℚ) : ℚ :=
  let s := sortQ l
  if l.length % 2 = 1 then s.getD (l.length / 2) 0
  else (s.getD (l.length / 2 - 1) 0 + s.getD (l.length / 2) 0) / 2

/-- Embeds `np.median` on a NaN-free batch of raw scores; the empty batch gives
NaN. -/
def npMedian (l : List ℚ) : FVal :=
  if l.isEmpty then none else some (medianQ l)

/-- Embeds `np.mean` over accumulated float values: NaN if the list is empty or
contains a NaN (numpy's plain mean is not NaN-aware), otherwise the
arithmetic mean. -/
def npMean (xs : List FVal) : FVal :=
  if xs.isEmpty ∨ xs.any (fun x => x.isNone) then none
  else some ((xs.filterMap id).sum / xs.length)

/-- Embeds `np.median` over accumulated float values: NaN if the list is empty or
contains a NaN. -/
def npMedianF (xs : List FVal) : FVal :=
  if xs.isEmpty ∨ xs.any (fun x => x.isNone) then none
  else some (medianQ (xs.filterMap id))

/-- Embeds `np.var` over accumulated float values (`ddof = 0`), NaN if the list
is empty or contains a NaN.  `np.std` is its square root, so `np.std` is
NaN exactly when `npVar` is `none` (the square root of a non-negative
rational is never NaN). -/
def npVar (xs : List FVal) : FVal :=
  match npMean xs with
  | none => none
  | some m => some (((xs.filterMap id).map (fun x => (x - m) ^ 2)).sum / xs.length)

/-- Embeds `np.min` over accumulated float values: NaN propagates.  (`np.min` of
an empty list raises; the accumulators below are only reduced when
non-empty, and the `none` returned here for `[]` is never relied upon.) -/
def npMin (xs : List FVal) : FVal :=
  if xs.any (fun x => x.isNone) then none
  else
    match xs.filterMap id with
    | [] => none
    | y :: ys => some (ys.foldl min y)

/-- Embeds `np.max` over accumulated float values: NaN propagates. -/
def npMax (xs : List FVal) : FVal :=
  if xs.any (fun x => x.isNone) then none
  else
    match xs.filterMap id with
    | [] => none
    | y :: ys => some (ys.foldl max y)

/-- Whether every element of a list equals its head (zero variance). -/
def isConstant (l : List ℚ) : Bool :=
  match l with
  | [] => true
  | x :: xs => xs.all (fun y => y == x)

/-- Embeds `scipy.stats.rankdata` with the default `"average"` method: the rank
of `x` in `l` is the number of strictly smaller elements plus the average
of the 1-based positions the ties of `x` occupy. -/
def rankOf (l : List ℚ) (x : ℚ) : ℚ :=
  (l.filter (fun y => y < x)).length + ((l.filter (fun y => y == x)).length + 1) / 2

/-- The rank vector of a list. -/
def ranks (l : List ℚ) : List ℚ :=
  l.map (rankOf l)

/-- Embeds `scipy.stats.spearmanr(xs, ys).correlation`: scipy computes the
Pearson correlation of the average-rank vectors, which is NaN (division
by a zero standard deviation, reported with a `ConstantInputWarning`)
exactly when either input sequence is constant — including sequences of
length 0 or 1.  The defined-case value is written here with the classical
rank-difference formula `1 - 6·Σd²/(n(n²-1))`, which agrees with the
Pearson form whenever the ranks are tie-free; every theorem below depends
only on which inputs give NaN, never on the defined-case value. -/
def spearman (xs ys : List ℚ) : FVal :=
  if isConstant xs = true ∨ isConstant ys = true then none
  else
    let d2 := (((ranks xs).zip (ranks ys)).map (fun p => (p.1 - p.2) ^ 2)).sum
    let n : ℚ := xs.length
    some (1 - 6 * d2 / (n * (n ^ 2 - 1)))

/-- The process-wide aggregation state of `main`: the three running
accumulator lists (lines 119–121) and the joint histogram grid
(line 126). -/
structure AggState : Type where
  spr_values : List FVal
  median_lchds : List FVal
  median_lddts : List FVal
  hist : ℕ → ℕ → ℕ

/-- The empty starting state (lines 119–126): empty accumulators and the
all-zero histogram of `np.histogram2d([], [], ...)`. -/
def initState : AggState :=
  { spr_values := []
    median_lchds := []
    median_lddts := []
    hist := fun _ _ => 0 }

/-- The per-prediction aggregation step (lines 162–174): append the
Spearman correlation of the two score sequences and the medians of each
sequence to their accumulators, and add the new 2D histogram of the
`(lchd, lddt)` samples onto the running grid (`hist += new_hist`). -/
def updateAgg (s : AggState) (lchd_scores lddt_scores : List ℚ) : AggState :=
  { spr_values := s.spr_values ++ [spearman lchd_scores lddt_scores]
    median_lchds := s.median_lchds ++ [npMedian lchd_scores]
    median_lddts := s.median_lddts ++ [npMedian lddt_scores]
    hist := fun i j => s.hist i j + driverHist lchd_scores lddt_scores i j }

/-- The observable persistence/side-effect events of `main`, in program
order: `aggUpdated` for the accumulator appends and `hist +=` of one
prediction (lines 164–174), `plotSaved` for the per-prediction scatter
plot (line 170), `histSaved` for the histogram figure written after every
prediction (lines 176–186), `progressLogged` for the progress line
(line 188), and `statsSaved` for the final `statistics.txt` write
(lines 190–211), reached only when no exception was raised. -/
inductive Ev : Type
  | aggUpdated : Ev
  | plotSaved : Ev
  | histSaved : Ev
  | progressLogged : Ev
  | statsSaved : Ev
deriving DecidableEq, Repr

/-- The archive-member key the driver looks up for the prediction at
0-based position `pred_idx` of `structures[structure_key][1:]`
(line 156): `f"{structure_key}{PREDICTOR_KEY}_{pred_idx + 1}"`. -/
def predKey (structure_key : String) (pred_idx : ℕ) : String :=
  structure_key ++ PREDICTOR_KEY ++ "_" ++ toString (pred_idx + 1)

/-- The body of the lDDT collection loop (lines 157–159): look up each
anchor key in order in the prediction's score map, appending the scores;
the first missing key raises `KeyError` and discards the partial list. -/
def lookupScores (inner : List (String × ℚ)) : List String → Except PyErr (List ℚ)
  | [] => .ok []
  | k :: ks =>
    match dictGet? inner k with
    | none => .error (PyErr.keyError k)
    | some v =>
      match lookupScores inner ks with
      | .error e => .error e
      | .ok vs => .ok (v :: vs)

/-- The lDDT collection loop for one prediction (lines 154–159):
`lddt_dict[key1]` (a missing key raises `KeyError`), then for every
anchor key `key2` in order, `lddt_dict[key1][key2]` (again `KeyError` on
a miss).  `key2s` lists `true_prim_atoms[anchor].id` in anchor order. -/
def collectLddt (lddt_dict : List (String × List (String × ℚ)))
    (key1 : String) (key2s : List String) : Except PyErr (List ℚ) :=
  match dictGet? lddt_dict key1 with
  | none => .error (PyErr.keyError key1)
  | some inner => lookupScores inner key2s

/-- One iteration of the prediction loop (lines 145–188) for the
prediction with archive key `key1`, given the LoCoHD oracle's scores for
it: collect the lDDT scores, then update the aggregation state and emit
the per-prediction persistence events. -/
def processPrediction (lddt_dict : List (String × List (String × ℚ)))
    (key1 : String) (key2s : List String) (lchd_scores : List ℚ)
    (s : AggState) : Except PyErr (AggState × List Ev) := do
  let lddt_scores ← collectLddt lddt_dict key1 key2s
  pure (updateAgg s lchd_scores lddt_scores,
    [Ev.aggUpdated, Ev.plotSaved, Ev.histSaved, Ev.progressLogged])

/-- The prediction loop of `main` for one structure (lines 145–188),
started at loop counter `idx`: `preds` holds the oracle's LoCoHD score
lists for `structures[structure_key][1:]` in order.  A raised exception
is not caught anywhere in the script, so the first error stops the loop;
the returned state is the content of the process-wide accumulators at
that moment. -/
def runPredsAux (lddt_dict : List (String × List (String × ℚ)))
    (structure_key : String) (key2s : List String) (s : AggState)
    (idx : ℕ) : List (List ℚ) → AggState × List Ev × Option PyErr
  | [] => (s, [], none)
  | scores :: rest =>
    match processPrediction lddt_dict (predKey structure_key idx) key2s scores s with
    | .error e => (s, [], some e)
    | .ok (s1, evs) =>
      let r := runPredsAux lddt_dict structure_key key2s s1 (idx + 1) rest
      (r.1, evs ++ r.2.1, r.2.2)

/-- Embeds `main` restricted to one structure: run the prediction loop and, only
if it terminated without an exception, write the final statistics report
(lines 190–211). -/
def runMain (lddt_dict : List (String × List (String × ℚ)))
    (structure_key : String) (key2s : List String) (s : AggState)
    (preds : List (List ℚ)) : AggState × List Ev × Option PyErr :=
  let r := runPredsAux lddt_dict structure_key key2s s 0 preds
  match r.2.2 with
  | none => (r.1, r.2.1 ++ [Ev.statsSaved], none)
  | some e => (r.1, r.2.1, some e)

/-- The canonical residue key built from a tab-split row (columns 0/2/1). -/
def keyOf (r : List String) : String :=
  r.getD 0 "" ++ "/" ++ r.getD 2 "" ++ "-" ++ r.getD 1 ""

/-- The entry a row contributes to the score map according to the spec: a
row with exactly six tab-separated fields and a non-sentinel score yields
its canonical key with the parsed score; every other row contributes
nothing. -/
def scoreEntry? (r : List String) : Option (String × ℚ) :=
  if r.length = 6 ∧ r.getD 5 "" ≠ "-" then
    (parseDecimal? (r.getD 5 "")).map (fun v => (keyOf r, v))
  else none

/-- A row the extractor can process without an exception: either a single
field (a blank or separator-free line) or exactly six fields whose score
column is the sentinel or a parseable decimal. -/
def WellFormedRow (r : List String) : Prop :=
  r.length = 1 ∨
    (r.length = 6 ∧ (r.getD 5 "" = "-" ∨ (parseDecimal? (r.getD 5 "")).isSome = true))

instance (r : List String) : Decidable (WellFormedRow r) := by
  unfold WellFormedRow
  infer_instance

/-- The keys of the six-field rows of a table (used to state that they are
pairwise distinct). -/
def sixFieldKeys (rows : List (List String)) : List String :=
  rows.filterMap (fun r => if r.length = 6 then some (keyOf r) else none)

/-- The tab-split rows following the header line at index `i`. -/
def rowsAfterHeader (text : String) (i : ℕ) : List (List String) :=
  ((pySplit text '\n').drop (i + 1)).map (fun line => pySplit line '\t')

/-- Concrete lDDT dictionary for the C1 counterexample: a structure with
three predictions whose score maps are all present, but the first
prediction's map is missing the anchor key `"A/1-GLY"`. -/
def cexLddtDict : List (String × List (String × ℚ)) :=
  [("T1024TS480_1", []),
   ("T1024TS480_2", [("A/1-GLY", 1/2)]),
   ("T1024TS480_3", [("A/1-GLY", 3/4)])]

/-- Concrete lDDT dictionary for the C5 counterexample: two predictions,
both with complete score maps. -/
def cexLddtDict2 : List (String × List (String × ℚ)) :=
  [("TTS480_1", [("A/1-GLY", 1/2)]),
   ("TTS480_2", [("A/1-GLY", 3/4)])]

/-- Concrete lDDT table for the C8 witness: a header, two valid rows and
one sentinel row. -/
def c8Text : String :=
  "Chain\tResName\tResNum\tAsses.\tQ.Prob.\tScore\nA\tGLY\t1\tx\ty\t0.5\nA\tALA\t2\tx\ty\t-\nA\tSER\t3\tx\ty\t0.84"

theorem le_fst_of_mem_enumFrom {α : Type} {p : ℕ × α} :
    ∀ {l : List α} {n : ℕ}, p ∈ l.enumFrom n → n ≤ p.1 := by
  intro l
  induction l with
  | nil => intro n h; cases h
  | cons x xs ih =>
    intro n h
    rw [List.enumFrom_cons, List.mem_cons] at h
    rcases h with rfl | h
    · exact le_refl _
    · exact Nat.le_of_succ_le (ih h)

theorem enumFrom_pairwise_lt {α : Type} (l : List α) (n : ℕ) :
    (l.enumFrom n).Pairwise (fun a b => a.1 < b.1) := by
  induction l generalizing n with
  | nil => exact List.Pairwise.nil
  | cons x xs ih =>
    refine List.Pairwise.cons (fun b hb => ?_) (ih (n + 1))
    exact Nat.lt_of_succ_le (le_fst_of_mem_enumFrom hb)

theorem enumFrom_filter_length {α : Type} (q : α → Bool) (l : List α) (n : ℕ) :
    ((l.enumFrom n).filter (fun p => q p.2)).length = (l.filter q).length := by
  induction l generalizing n with
  | nil => rfl
  | cons x xs ih =>
    simp only [List.enumFrom_cons, List.filter_cons]
    cases hq : q x <;> simp [hq, ih (n + 1)]

/-- C7: on a reference cloud with `N` points of type `"Cent"` out of `M`
total points, the anchor list has length exactly `N`, its reference
indices are strictly ascending, the prediction index equals the reference
index in every pair, and the residue key used downstream for each anchor
(`true_prim_atoms[anchor].id`, with `true_prim_atoms` the `prat_to_pra`
image of the templates) is the canonical key of the template at that
reference index, which is of type `"Cent"`. -/
theorem C7_anchor_aligner (templates : List PrimitiveAtomTemplate) :
    (anchorsOf templates).length
      = (templates.filter (fun t => t.primitive_type == "Cent")).length ∧
    (anchorsOf templates).Pairwise (fun a b => a.1 < b.1) ∧
    ∀ p ∈ anchorsOf templates, p.2 = p.1 ∧
      ∃ t, templates[p.1]? = some t ∧ t.primitive_type = "Cent" ∧
        (templates.map prat_to_pra)[p.1]? = some (prat_to_pra t) ∧
        (prat_to_pra t).id
          = t.chain_id ++ "/" ++ toString t.res_num ++ "-" ++ t.res_name := by
  refine ⟨?_, ?_, ?_⟩
  · simp only [anchorsOf, List.length_map, List.enum]
    exact enumFrom_filter_length (fun t => t.primitive_type == "Cent") templates 0
  · rw [anchorsOf, List.pairwise_map]
    exact (enumFrom_pairwise_lt templates 0).filter _
  · intro p hp
    rw [anchorsOf, List.mem_map] at hp
    obtain ⟨q, hq, hpq⟩ := hp
    rw [List.mem_filter] at hq
    obtain ⟨hqenum, hqcent⟩ := hq
    have hget : templates[q.1]? = some q.2 := by
      rw [← List.mem_enum_iff_getElem?]
      exact hqenum
    subst hpq
    refine ⟨rfl, q.2, hget, by simpa using hqcent, ?_, rfl⟩
    simp [List.getElem?_map, hget]

/-- C9: the per-prediction aggregation step is append-only: it appends
exactly one correlation value and one median of each score sequence to
the accumulators, leaves every previously appended entry unchanged, and
only adds to histogram bins (no bin count ever decreases). -/
theorem C9_append_only (s : AggState) (lchd_scores lddt_scores : List ℚ) :
    (updateAgg s lchd_scores lddt_scores).spr_values
        = s.spr_values ++ [spearman lchd_scores lddt_scores] ∧
    (updateAgg s lchd_scores lddt_scores).median_lchds
        = s.median_lchds ++ [npMedian lchd_scores] ∧
    (updateAgg s lchd_scores lddt_scores).median_lddts
        = s.median_lddts ++ [npMedian lddt_scores] ∧
    (updateAgg s lchd_scores lddt_scores).spr_values.length
        = s.spr_values.length + 1 ∧
    (updateAgg s lchd_scores lddt_scores).spr_values.take s.spr_values.length
        = s.spr_values ∧
    (updateAgg s lchd_scores lddt_scores).median_lchds.take s.median_lchds.length
        = s.median_lchds ∧
    (updateAgg s lchd_scores lddt_scores).median_lddts.take s.median_lddts.length
        = s.median_lddts ∧
    ∀ i j, s.hist i j ≤ (updateAgg s lchd_scores lddt_scores).hist i j := by
  refine ⟨rfl, rfl, rfl, by simp [updateAgg], ?_, ?_, ?_, fun i j => ?_⟩
  · exact List.take_left s.spr_values _
  · exact List.take_left s.median_lchds _
  · exact List.take_left s.median_lddts _
  · exact Nat.le_add_right _ _

theorem histBin_lt {lo hi : ℚ} {B : ℕ} {v : ℚ} {k : ℕ} (hB : 0 < B)
    (h : histBin lo hi B v = some k) : k < B := by
  rw [histBin] at h
  split at h
  · cases h
  · have hk : k = min (Int.toNat ⌊(v - lo) / (hi - lo) * B⌋) (B - 1) :=
      (Option.some_inj.mp h).symm
    omega

theorem histBin_isSome (lo hi : ℚ) (B : ℕ) (v : ℚ) :
    (histBin lo hi B v).isSome = decide (lo ≤ v ∧ v ≤ hi) := by
  rw [histBin]
  by_cases h : v < lo ∨ hi < v
  · simp only [if_pos h]
    have : ¬(lo ≤ v ∧ v ≤ hi) := by
      rcases h with h | h
      · exact fun hc => absurd hc.1 (not_le.mpr h)
      · exact fun hc => absurd hc.2 (not_le.mpr h)
    simp [this]
  · simp only [if_neg h]
    push_neg at h
    simp [h.1, h.2]

theorem binPair_isSome (lox hix loy hiy : ℚ) (B : ℕ) (x y : ℚ) :
    (binPair lox hix loy hiy B x y).isSome
      = ((histBin lox hix B x).isSome && (histBin loy hiy B y).isSome) := by
  rw [binPair]
  cases histBin lox hix B x <;> cases histBin loy hiy B y <;> simp

theorem binPair_lt {lox hix loy hiy : ℚ} {B : ℕ} {x y : ℚ} {i j : ℕ}
    (hB : 0 < B) (h : binPair lox hix loy hiy B x y = some (i, j)) :
    i < B ∧ j < B := by
  rw [binPair] at h
  cases hx : histBin lox hix B x with
  | none => rw [hx] at h; cases h
  | some a =>
    cases hy : histBin loy hiy B y with
    | none => rw [hx, hy] at h; cases h
    | some b =>
      rw [hx, hy] at h
      obtain ⟨rfl, rfl⟩ : a = i ∧ b = j := by
        have := Option.some_inj.mp h
        exact ⟨congrArg Prod.fst this, congrArg Prod.snd this⟩
      exact ⟨histBin_lt hB hx, histBin_lt hB hy⟩

theorem histTotal_filter (lox hix loy hiy : ℚ) (B : ℕ) (hB : 0 < B)
    (ps : List (ℚ × ℚ)) :
    histTotal B (fun i j =>
        (ps.filter (fun r => binPair lox hix loy hiy B r.1 r.2 == some (i, j))).length)
      = (ps.filter (fun r => (binPair lox hix loy hiy B r.1 r.2).isSome)).length := by
  induction ps with
  | nil => simp [histTotal]
  | cons p ps ih =>
    have hsplit : ∀ i j : ℕ,
        ((p :: ps).filter
            (fun r => binPair lox hix loy hiy B r.1 r.2 == some (i, j))).length
          = (ps.filter
              (fun r => binPair lox hix loy hiy B r.1 r.2 == some (i, j))).length
            + (if binPair lox hix loy hiy B p.1 p.2 = some (i, j) then 1 else 0) := by
      intro i j
      by_cases h : binPair lox hix loy hiy B p.1 p.2 = some (i, j)
      · simp [List.filter_cons, h]
      · simp [List.filter_cons, h]
    have hsum : histTotal B (fun i j =>
        (ps.filter (fun r => binPair lox hix loy hiy B r.1 r.2 == some (i, j))).length
          + (if binPair lox hix loy hiy B p.1 p.2 = some (i, j) then 1 else 0))
        = histTotal B (fun i j =>
            (ps.filter
              (fun r => binPair lox hix loy hiy B r.1 r.2 == some (i, j))).length)
          + histTotal B (fun i j =>
              if binPair lox hix loy hiy B p.1 p.2 = some (i, j) then 1 else 0) := by
      simp [histTotal, Finset.sum_add_distrib]
    have hone : histTotal B (fun i j =>
        if binPair lox hix loy hiy B p.1 p.2 = some (i, j) then 1 else 0)
        = (if (binPair lox hix loy hiy B p.1 p.2).isSome then 1 else 0) := by
      cases hbp : binPair lox hix loy hiy B p.1 p.2 with
      | none => simp [histTotal]
      | some c =>
        obtain ⟨i0, j0⟩ := c
        obtain ⟨hi0, hj0⟩ := binPair_lt hB hbp
        have hcell : ∀ i j : ℕ,
            (if (some (i0, j0) : Option (ℕ × ℕ)) = some (i, j) then (1 : ℕ) else 0)
              = (if i0 = i then 1 else 0) * (if j0 = j then 1 else 0) := by
          intro i j
          by_cases h1 : i0 = i <;> by_cases h2 : j0 = j <;>
            simp [h1, h2, Prod.ext_iff]
        simp only [histTotal, hcell, Option.isSome_some, if_true]
        have hinner : ∀ i : ℕ,
            (∑ j ∈ Finset.range B,
              (if i0 = i then (1 : ℕ) else 0) * (if j0 = j then 1 else 0))
              = (if i0 = i then (1 : ℕ) else 0) := by
          intro i
          rw [← Finset.mul_sum,
            Finset.sum_ite_eq (Finset.range B) j0 (fun _ => (1 : ℕ))]
          simp [Finset.mem_range, hj0]
        simp only [hinner]
        rw [Finset.sum_ite_eq (Finset.range B) i0 (fun _ => (1 : ℕ))]
        simp [Finset.mem_range, hi0]
    calc histTotal B (fun i j =>
          ((p :: ps).filter
            (fun r => binPair lox hix loy hiy B r.1 r.2 == some (i, j))).length)
        = histTotal B (fun i j =>
            (ps.filter
              (fun r => binPair lox hix loy hiy B r.1 r.2 == some (i, j))).length
            + (if binPair lox hix loy hiy B p.1 p.2 = some (i, j) then 1 else 0)) := by
          simp only [histTotal, hsplit]
      _ = (ps.filter (fun r => (binPair lox hix loy hiy B r.1 r.2).isSome)).length
            + (if (binPair lox hix loy hiy B p.1 p.2).isSome then 1 else 0) := by
          rw [hsum, ih, hone]
      _ = ((p :: ps).filter
            (fun r => (binPair lox hix loy hiy B r.1 r.2).isSome)).length := by
          by_cases h : (binPair lox hix loy hiy B p.1 p.2).isSome
          · simp [List.filter_cons, h]
          · simp [List.filter_cons, h]

set_option maxRecDepth 4000 in
/-- C2 fails as stated: `np.histogram2d` drops out-of-range samples
instead of clamping them.  At the concrete batch `[(3/5, 1/2)]` (the
`x`-coordinate `3/5` lies above the upper edge `1/2` of the LoCoHD axis)
the histogram's total count grows by `0`, not by the batch size `1`; in
particular the cell named by the spec's clamp formula,
`(clamp(...x...), clamp(...y...)) = (99, 50)`, also stays empty. -/
theorem C2_counterexample :
    histTotal 100 (driverHist [3/5] [1/2]) = 0 ∧
    specBinClamp 0 (1/2) 100 (3/5) = 99 ∧
    specBinClamp 0 1 100 (1/2) = 50 ∧
    driverHist [3/5] [1/2] 99 50 = 0 := by
  refine ⟨?_, by with_unfolding_all decide, by with_unfolding_all decide,
    by with_unfolding_all decide⟩
  have h := histTotal_filter 0 (1/2) 0 1 100 (by norm_num) ([((3:ℚ)/5, (1:ℚ)/2)])
  rw [show histTotal 100 (driverHist [3/5] [1/2])
      = histTotal 100 (fun i j =>
          (([((3:ℚ)/5, (1:ℚ)/2)] : List (ℚ × ℚ)).filter
            (fun r => binPair 0 (1/2) 0 1 100 r.1 r.2 == some (i, j))).length) from rfl]
  rw [h]
  with_unfolding_all decide

/-- C2 amended: with `B` bins over `[lo, hi)`, `lo < hi`, the bin index of
an in-range value `v` (with `lo ≤ v ≤ hi`, the upper edge included and
clamped into the top bin) equals the spec's clamp formula
`clamp(floor((v-lo)/(hi-lo)*B), 0, B-1)`, and a value on an interior bin
boundary `lo + k·(hi-lo)/B` lands in bin `k`, the bin whose lower edge it
is; but a value with `v < lo` or `hi < v` is dropped (`none`), so the
histogram total grows by the number of samples with both coordinates in
range, not by the batch size. -/
theorem C2_amended (lo hi : ℚ) (B : ℕ) (v : ℚ) (k : ℕ) (xs ys : List ℚ)
    (hlo : lo < hi) (hB : 0 < B) (hk : k < B) :
    (lo ≤ v → v ≤ hi → histBin lo hi B v = some (specBinClamp lo hi B v)) ∧
    histBin lo hi B (lo + k * ((hi - lo) / B)) = some k ∧
    (v < lo ∨ hi < v → histBin lo hi B v = none) ∧
    histTotal 100 (driverHist xs ys)
      = ((xs.zip ys).filter
          (fun p => decide ((0 ≤ p.1 ∧ p.1 ≤ 1/2) ∧ (0 ≤ p.2 ∧ p.2 ≤ 1)))).length := by
  refine ⟨?_, ?_, ?_, ?_⟩
  · intro h1 h2
    have hnot : ¬(v < lo ∨ hi < v) := by
      push_neg
      exact ⟨h1, h2⟩
    rw [histBin, if_neg hnot, specBinClamp]
    have hf : (0 : ℤ) ≤ ⌊(v - lo) / (hi - lo) * B⌋ := by
      apply Int.floor_nonneg.mpr
      apply mul_nonneg
      · exact div_nonneg (by linarith) (by linarith)
      · exact_mod_cast Nat.zero_le B
    congr 1
    omega
  · have harg : ((lo + k * ((hi - lo) / B)) - lo) / (hi - lo) * B = (k : ℚ) := by
      have hne : hi - lo ≠ 0 := by linarith
      have hBne : (B : ℚ) ≠ 0 := by exact_mod_cast hB.ne'
      field_simp
      ring
    have hin : ¬(lo + k * ((hi - lo) / B) < lo ∨ hi < lo + k * ((hi - lo) / B)) := by
      push_neg
      constructor
      · have : (0 : ℚ) ≤ k * ((hi - lo) / B) := by
          apply mul_nonneg (by exact_mod_cast Nat.zero_le k)
          exact div_nonneg (by linarith) (by exact_mod_cast Nat.zero_le B)
        linarith
      · have hkB : (k : ℚ) ≤ B := by exact_mod_cast hk.le
        have hstep : (0 : ℚ) < (hi - lo) / B := by
          apply div_pos (by linarith)
          exact_mod_cast hB
        have : k * ((hi - lo) / B) ≤ B * ((hi - lo) / B) := by
          apply mul_le_mul_of_nonneg_right hkB hstep.le
        have hBfull : (B : ℚ) * ((hi - lo) / B) = hi - lo := by
          field_simp
        linarith [hBfull ▸ this]
    rw [histBin, if_neg hin, harg, Int.floor_natCast]
    have : Int.toNat (k : ℤ) = k := Int.toNat_natCast k
    rw [this]
    congr 1
    omega
  · intro h
    rw [histBin, if_pos h]
  · have h := histTotal_filter 0 (1/2) 0 1 100 (by norm_num) (xs.zip ys)
    rw [show histTotal 100 (driverHist xs ys)
        = histTotal 100 (fun i j =>
            ((xs.zip ys).filter
              (fun r => binPair 0 (1/2) 0 1 100 r.1 r.2 == some (i, j))).length) from rfl]
    rw [h]
    have hpred : ∀ q ∈ xs.zip ys,
        ((binPair 0 (1/2) 0 1 100 q.1 q.2).isSome : Bool)
          = decide ((0 ≤ q.1 ∧ q.1 ≤ 1/2) ∧ (0 ≤ q.2 ∧ q.2 ≤ 1)) := by
      intro q _
      rw [binPair_isSome, histBin_isSome, histBin_isSome]
      by_cases h1 : (0 : ℚ) ≤ q.1 ∧ q.1 ≤ 1/2 <;>
        by_cases h2 : (0 : ℚ) ≤ q.2 ∧ q.2 ≤ 1 <;>
        simp [h1, h2]
    rw [List.filter_congr hpred]

/-- Witness for `C2_amended` at `lo = 0`, `hi = 1`, `B = 100`, `v = 1/2`,
`k = 25`, one in-range sample. -/
theorem C2_amended_witness :
    ((0 : ℚ) ≤ 1/2 → (1/2 : ℚ) ≤ 1 →
      histBin 0 1 100 (1/2) = some (specBinClamp 0 1 100 (1/2))) ∧
    histBin 0 1 100 (0 + 25 * ((1 - 0) / 100)) = some 25 ∧
    ((1/2 : ℚ) < 0 ∨ (1 : ℚ) < 1/2 → histBin 0 1 100 (1/2) = none) ∧
    histTotal 100 (driverHist [1/4] [1/2])
      = (([((1:ℚ)/4)].zip [((1:ℚ)/2)]).filter
          (fun p => decide ((0 ≤ p.1 ∧ p.1 ≤ 1/2) ∧ (0 ≤ p.2 ∧ p.2 ≤ 1)))).length :=
  C2_amended 0 1 100 (1/2) 25 [1/4] [1/2] (by norm_num) (by norm_num) (by norm_num)

/-- C3 fails as stated: the script reduces the accumulated correlations
with the plain (not NaN-aware) `np.mean`/`np.median`/`np.std`/`np.min`/
`np.max`, so a NaN correlation makes every reported statistic NaN.  At
the concrete accumulator `[1.0, spearmanr([1,1],[1,2])]` — whose second
entry is the NaN produced by a zero-variance input — the reported mean is
NaN, not the `1.0` that NaN-aware exclusion would give. -/
theorem C3_counterexample :
    spearman [1, 1] [1, 2] = none ∧
    npMean [some 1, spearman [1, 1] [1, 2]] = none ∧
    npMedianF [some 1, spearman [1, 1] [1, 2]] = none ∧
    npVar [some 1, spearman [1, 1] [1, 2]] = none ∧
    npMin [some 1, spearman [1, 1] [1, 2]] = none ∧
    npMax [some 1, spearman [1, 1] [1, 2]] = none ∧
    ¬ npMean [some 1, spearman [1, 1] [1, 2]] = some 1 := by
  with_unfolding_all decide

/-- C3 amended: when either score sequence has zero variance the rank
correlation is NaN (`none`) — not `0` and not a crash (the function is
total) — and once that NaN is among the accumulated values, every
reported statistic (mean, median, variance — hence standard deviation —,
min, max) is NaN, because the script's reductions are not NaN-aware. -/
theorem C3_amended (xs ys : List ℚ) (l : List FVal)
    (hconst : isConstant xs = true ∨ isConstant ys = true)
    (hmem : spearman xs ys ∈ l) :
    spearman xs ys = none ∧
    ¬ spearman xs ys = some 0 ∧
    npMean l = none ∧
    npMedianF l = none ∧
    npVar l = none ∧
    npMin l = none ∧
    npMax l = none := by
  have hnan : spearman xs ys = none := by
    rw [spearman, if_pos hconst]
  have hmemn : (none : FVal) ∈ l := hnan ▸ hmem
  have hany : l.any (fun x => x.isNone) = true :=
    List.any_eq_true.mpr ⟨none, hmemn, rfl⟩
  have hmean : npMean l = none := by
    rw [npMean, if_pos (Or.inr hany)]
  refine ⟨hnan, by rw [hnan]; exact fun h => Option.noConfusion h, hmean, ?_, ?_, ?_, ?_⟩
  · rw [npMedianF, if_pos (Or.inr hany)]
  · rw [npVar, hmean]
  · rw [npMin, if_pos hany]
  · rw [npMax, if_pos hany]

/-- Witness for `C3_amended`: the constant sequence `[1, 1]` against
`[1, 2]`, with the NaN sitting in a two-element accumulator. -/
theorem C3_amended_witness :
    spearman [1, 1] [1, 2] = none ∧
    ¬ spearman [1, 1] [1, 2] = some 0 ∧
    npMean [some 1, spearman [1, 1] [1, 2]] = none ∧
    npMedianF [some 1, spearman [1, 1] [1, 2]] = none ∧
    npVar [some 1, spearman [1, 1] [1, 2]] = none ∧
    npMin [some 1, spearman [1, 1] [1, 2]] = none ∧
    npMax [some 1, spearman [1, 1] [1, 2]] = none :=
  C3_amended [1, 1] [1, 2] [some 1, spearman [1, 1] [1, 2]]
    (Or.inl (by with_unfolding_all decide))
    (List.mem_cons_of_mem _ (List.mem_singleton.mpr rfl))

theorem lookupScores_error {inner : List (String × ℚ)} {key2 : String}
    (hmiss : dictGet? inner key2 = none) :
    ∀ {key2s : List String}, key2 ∈ key2s →
      ∃ e, lookupScores inner key2s = .error e := by
  intro key2s
  induction key2s with
  | nil => intro h; cases h
  | cons k ks ih =>
    intro hmem
    cases hj : dictGet? inner k with
    | none =>
      exact ⟨PyErr.keyError k, by simp [lookupScores, hj]⟩
    | some v =>
      have hne : key2 ≠ k := by
        intro h
        rw [h, hj] at hmiss
        cases hmiss
      have hks : key2 ∈ ks := by
        rcases List.mem_cons.mp hmem with h | h
        · exact absurd h hne
        · exact h
      obtain ⟨e, he⟩ := ih hks
      exact ⟨e, by simp [lookupScores, hj, he]⟩

/-- C1 fails as stated: with three predictions whose score maps are
present but the first of which lacks the anchor key `"A/1-GLY"`, the
`KeyError` is not contained — the whole run stops at the first
prediction, the accumulator ends with 0 entries (not 2), and the final
statistics are never written. -/
theorem C1_counterexample :
    (runMain cexLddtDict "T1024" ["A/1-GLY"] initState
        [[1/10], [2/10], [3/10]]).2.2 = some (PyErr.keyError "A/1-GLY") ∧
    (runMain cexLddtDict "T1024" ["A/1-GLY"] initState
        [[1/10], [2/10], [3/10]]).1.spr_values.length = 0 ∧
    ¬ (runMain cexLddtDict "T1024" ["A/1-GLY"] initState
        [[1/10], [2/10], [3/10]]).1.spr_values.length = 2 ∧
    (runMain cexLddtDict "T1024" ["A/1-GLY"] initState
        [[1/10], [2/10], [3/10]]).2.1.count Ev.statsSaved = 0 := by
  with_unfolding_all decide

/-- C1 amended: when an anchor's residue key is absent from a
prediction's score map, the lookup fails with `KeyError` — the anchor is
never silently dropped, there is no `ok` outcome — but the error is not
contained: the uncaught exception stops the run at that prediction, no
later prediction is processed, the aggregators keep exactly the
predictions processed before the failure, and (for the run started at the
first prediction) the statistics report is never written. -/
theorem C1_amended (lddt_dict : List (String × List (String × ℚ)))
    (structure_key : String) (key2s : List String) (s : AggState) (idx : ℕ)
    (scores : List ℚ) (rest : List (List ℚ))
    (inner : List (String × ℚ)) (key2 : String)
    (hinner : dictGet? lddt_dict (predKey structure_key idx) = some inner)
    (hk : key2 ∈ key2s) (hmiss : dictGet? inner key2 = none) :
    (∃ e, runPredsAux lddt_dict structure_key key2s s idx (scores :: rest)
        = (s, [], some e)) ∧
    (runPredsAux lddt_dict structure_key key2s s idx
        (scores :: rest)).1.spr_values = s.spr_values ∧
    (idx = 0 →
      (runMain lddt_dict structure_key key2s s
          (scores :: rest)).2.1.count Ev.statsSaved = 0 ∧
      (runMain lddt_dict structure_key key2s s
          (scores :: rest)).1.spr_values = s.spr_values) := by
  obtain ⟨e, he⟩ := lookupScores_error hmiss hk
  have hcoll : collectLddt lddt_dict (predKey structure_key idx) key2s = .error e := by
    rw [collectLddt, hinner]
    exact he
  have hproc : processPrediction lddt_dict (predKey structure_key idx) key2s scores s
      = .error e := by
    rw [processPrediction, hcoll]
    rfl
  have hrun : runPredsAux lddt_dict structure_key key2s s idx (scores :: rest)
      = (s, [], some e) := by
    rw [runPredsAux, hproc]
  refine ⟨⟨e, hrun⟩, by rw [hrun], ?_⟩
  intro hidx
  subst hidx
  have hmain : runMain lddt_dict structure_key key2s s (scores :: rest)
      = (s, [], some e) := by
    rw [runMain, hrun]
  rw [hmain]
  exact ⟨rfl, rfl⟩

/-- Witness for `C1_amended` at the concrete three-prediction input of
the counterexample dictionary. -/
theorem C1_amended_witness :
    (∃ e, runPredsAux cexLddtDict "T1024" ["A/1-GLY"] initState 0
        [[2/10], [3/10]]
        = (initState, [], some e)) ∧
    (runPredsAux cexLddtDict "T1024" ["A/1-GLY"] initState 0
        [[2/10], [3/10]]).1.spr_values = initState.spr_values ∧
    ((0 : ℕ) = 0 →
      (runMain cexLddtDict "T1024" ["A/1-GLY"] initState
          [[2/10], [3/10]]).2.1.count Ev.statsSaved = 0 ∧
      (runMain cexLddtDict "T1024" ["A/1-GLY"] initState
          [[2/10], [3/10]]).1.spr_values = initState.spr_values) :=
  C1_amended cexLddtDict "T1024" ["A/1-GLY"] initState 0 [2/10] [[3/10]] [] "A/1-GLY"
    (by with_unfolding_all decide)
    (List.mem_singleton.mpr rfl)
    (by with_unfolding_all decide)

theorem processPrediction_ok (lddt_dict : List (String × List (String × ℚ)))
    (key1 : String) (key2s : List String) (scores : List ℚ) (s : AggState)
    (pr : AggState × List Ev)
    (h : processPrediction lddt_dict key1 key2s scores s = .ok pr) :
    pr.2 = [Ev.aggUpdated, Ev.plotSaved, Ev.histSaved, Ev.progressLogged] := by
  rw [processPrediction] at h
  cases hc : collectLddt lddt_dict key1 key2s with
  | error e =>
    rw [hc] at h
    cases h
  | ok ls =>
    rw [hc] at h
    cases h
    rfl

theorem runPredsAux_counts (lddt_dict : List (String × List (String × ℚ)))
    (structure_key : String) (key2s : List String) :
    ∀ (preds : List (List ℚ)) (s : AggState) (idx : ℕ),
      (runPredsAux lddt_dict structure_key key2s s idx preds).2.2 = none →
        (runPredsAux lddt_dict structure_key key2s s idx preds).2.1.count Ev.histSaved
            = preds.length ∧
        (runPredsAux lddt_dict structure_key key2s s idx preds).2.1.count Ev.aggUpdated
            = preds.length ∧
        (runPredsAux lddt_dict structure_key key2s s idx preds).2.1.count Ev.statsSaved
            = 0 := by
  intro preds
  induction preds with
  | nil =>
    intro s idx _
    exact ⟨rfl, rfl, rfl⟩
  | cons scores rest ih =>
    intro s idx h
    cases hp : processPrediction lddt_dict (predKey structure_key idx) key2s scores s with
    | error e =>
      rw [runPredsAux, hp] at h
      cases h
    | ok pr =>
      obtain ⟨s1, evs⟩ := pr
      have hevs := processPrediction_ok lddt_dict (predKey structure_key idx)
        key2s scores s (s1, evs) hp
      simp only at hevs
      subst hevs
      simp only [runPredsAux, hp] at h ⊢
      obtain ⟨h1, h2, h3⟩ := ih s1 (idx + 1) h
      have e1 : List.count Ev.histSaved
          [Ev.aggUpdated, Ev.plotSaved, Ev.histSaved, Ev.progressLogged] = 1 := rfl
      have e2 : List.count Ev.aggUpdated
          [Ev.aggUpdated, Ev.plotSaved, Ev.histSaved, Ev.progressLogged] = 1 := rfl
      have e3 : List.count Ev.statsSaved
          [Ev.aggUpdated, Ev.plotSaved, Ev.histSaved, Ev.progressLogged] = 0 := rfl
      refine ⟨?_, ?_, ?_⟩
      · rw [List.count_append, h1, e1, List.length_cons]
        omega
      · rw [List.count_append, h2, e2, List.length_cons]
        omega
      · rw [List.count_append, h3, e3]

/-- C5 fails as stated: with two predictions that both process cleanly,
the first prediction is completely processed (its aggregation and
histogram-save events are the first four events) yet no statistics-save
event has happened at that point — the statistics report is written only
once, at the very end, so it is not persisted "after every processed
prediction". -/
theorem C5_counterexample :
    ((runMain cexLddtDict2 "T" ["A/1-GLY"] initState
        [[1/10], [2/10]]).2.1.take 4).count Ev.statsSaved = 0 ∧
    ((runMain cexLddtDict2 "T" ["A/1-GLY"] initState
        [[1/10], [2/10]]).2.1.take 4).count Ev.aggUpdated = 1 ∧
    ((runMain cexLddtDict2 "T" ["A/1-GLY"] initState
        [[1/10], [2/10]]).2.1.take 4).count Ev.histSaved = 1 ∧
    (runMain cexLddtDict2 "T" ["A/1-GLY"] initState
        [[1/10], [2/10]]).2.1.count Ev.statsSaved = 1 ∧
    (runMain cexLddtDict2 "T" ["A/1-GLY"] initState
        [[1/10], [2/10]]).2.1.count Ev.histSaved = 2 := by
  with_unfolding_all decide

/-- C5 amended: in a run that raises no exception, the histogram figure
is saved exactly once per processed prediction, but the running
statistics are written exactly once, as the final event of the whole run
— terminating the process between predictions therefore preserves the
histogram artifact but loses the statistics report entirely. -/
theorem C5_amended (lddt_dict : List (String × List (String × ℚ)))
    (structure_key : String) (key2s : List String) (s : AggState)
    (preds : List (List ℚ))
    (hok : (runPredsAux lddt_dict structure_key key2s s 0 preds).2.2 = none) :
    (runMain lddt_dict structure_key key2s s preds).2.1.count Ev.histSaved
        = preds.length ∧
    (runMain lddt_dict structure_key key2s s preds).2.1.count Ev.aggUpdated
        = preds.length ∧
    (runMain lddt_dict structure_key key2s s preds).2.1.count Ev.statsSaved = 1 ∧
    (runMain lddt_dict structure_key key2s s preds).2.1.getLast?
        = some Ev.statsSaved := by
  obtain ⟨h1, h2, h3⟩ := runPredsAux_counts lddt_dict structure_key key2s preds s 0 hok
  have hm : runMain lddt_dict structure_key key2s s preds
      = ((runPredsAux lddt_dict structure_key key2s s 0 preds).1,
         (runPredsAux lddt_dict structure_key key2s s 0 preds).2.1 ++ [Ev.statsSaved],
         none) := by
    simp only [runMain]
    rw [hok]
  rw [hm]
  refine ⟨?_, ?_, ?_, List.getLast?_concat _⟩
  · rw [List.count_append, h1]
    rfl
  · rw [List.count_append, h2]
    rfl
  · rw [List.count_append, h3]
    rfl

/-- Witness for `C5_amended`: the clean two-prediction run of the
counterexample dictionary. -/
theorem C5_amended_witness :
    (runMain cexLddtDict2 "T" ["A/1-GLY"] initState
        [[1/10], [2/10]]).2.1.count Ev.histSaved = 2 ∧
    (runMain cexLddtDict2 "T" ["A/1-GLY"] initState
        [[1/10], [2/10]]).2.1.count Ev.aggUpdated = 2 ∧
    (runMain cexLddtDict2 "T" ["A/1-GLY"] initState
        [[1/10], [2/10]]).2.1.count Ev.statsSaved = 1 ∧
    (runMain cexLddtDict2 "T" ["A/1-GLY"] initState
        [[1/10], [2/10]]).2.1.getLast? = some Ev.statsSaved :=
  C5_amended cexLddtDict2 "T" ["A/1-GLY"] initState [[1/10], [2/10]]
    (by with_unfolding_all decide)

theorem procRows_skip_one (r : List String) (hr : r.length = 1) :
    ∀ (rs1 : List (List String)) (acc : List (String × ℚ)) (rs2 : List (List String)),
      procRows acc (rs1 ++ r :: rs2) = procRows acc (rs1 ++ rs2) := by
  intro rs1
  induction rs1 with
  | nil =>
    intro acc rs2
    show procRows acc (r :: rs2) = procRows acc rs2
    rw [procRows, List.foldlM_cons,
      show procRow acc r = .ok acc from by rw [procRow, if_pos hr]]
    rfl
  | cons x xs ih =>
    intro acc rs2
    show procRows acc (x :: (xs ++ r :: rs2)) = procRows acc (x :: (xs ++ rs2))
    rw [procRows, procRows, List.foldlM_cons, List.foldlM_cons]
    cases hx : procRow acc x with
    | error e => rfl
    | ok acc1 => exact ih acc1 rs2

/-- C4 fails as stated: a row with a wrong column count is not skipped.
The table below has a truncated three-field row followed by a fully valid
row; extraction aborts with `IndexError` and the valid row `"A/2-GLY"` is
not extracted (the same table without the malformed row parses fine). -/
theorem C4_counterexample :
    lddt_from_text
      "Chain\tResName\tResNum\tAsses.\tQ.Prob.\tScore\nA\tALA\t1\nA\tGLY\t2\tx\ty\t0.5"
      = .error .indexError ∧
    lddt_from_text
      "Chain\tResName\tResNum\tAsses.\tQ.Prob.\tScore\nA\tGLY\t2\tx\ty\t0.5"
      = .ok [("A/2-GLY", 1/2)] := by
  with_unfolding_all decide

/-- C4 amended: only rows that split into exactly one field (blank or
separator-free lines) are skipped without failing — removing such a row
anywhere in the table leaves the result unchanged; but a row that splits
into 2–5 fields (a genuinely wrong column count) raises `IndexError` at
`line[5]`, aborting extraction of the entire file. -/
theorem C4_amended (acc : List (String × ℚ)) (r1 rbad : List String)
    (rs1 rs2 : List (List String))
    (h1 : r1.length = 1) (hbad2 : 2 ≤ rbad.length) (hbad6 : rbad.length < 6) :
    procRow acc r1 = .ok acc ∧
    procRows acc (rs1 ++ r1 :: rs2) = procRows acc (rs1 ++ rs2) ∧
    procRow acc rbad = .error .indexError := by
  refine ⟨by rw [procRow, if_pos h1], procRows_skip_one r1 h1 rs1 acc rs2, ?_⟩
  rw [procRow, if_neg (by omega), if_pos hbad6]

/-- Witness for `C4_amended`: a blank line and a three-field row in a
small table. -/
theorem C4_amended_witness :
    procRow [] [""] = .ok [] ∧
    procRows [] ([["A", "GLY", "2", "x", "y", "0.5"]] ++ [""] :: [])
      = procRows [] ([["A", "GLY", "2", "x", "y", "0.5"]] ++ []) ∧
    procRow [] ["A", "ALA", "1"] = .error .indexError :=
  C4_amended [] [""] ["A", "ALA", "1"] [["A", "GLY", "2", "x", "y", "0.5"]] []
    (by with_unfolding_all decide) (by with_unfolding_all decide)
    (by with_unfolding_all decide)

/-- C6 fails in its containment half: a header-less archive member does
not merely lose that one member — `read_lddt_values` aborts for the whole
structure.  Below, the first member has no header and the second is fully
valid (it parses to `"A/1-GLY" ↦ 0.5` on its own), yet the structure's
ingestion returns only the error. -/
theorem C6_counterexample :
    read_lddt_values "T1024"
      [("./T1024/T1024TS480_1.lddt", "no header in this member"),
       ("./T1024/T1024TS480_2.lddt",
        "Chain\tResName\tResNum\tAsses.\tQ.Prob.\tScore\nA\tGLY\t1\tx\ty\t0.5")]
      = .error .stopIteration ∧
    lddt_from_text
      "Chain\tResName\tResNum\tAsses.\tQ.Prob.\tScore\nA\tGLY\t1\tx\ty\t0.5"
      = .ok [("A/1-GLY", 1/2)] := by
  with_unfolding_all decide

/-- C6 amended: `lddt_from_text` does fail (with `StopIteration`, the
`FormatError` of the spec) when no line of the text starts with the
header; but the error is not contained to one archive member — it
propagates out of `read_lddt_values`, aborting ingestion for the whole
structure, so no member's score map is produced. -/
theorem C6_amended (text structure_key name : String)
    (rest : List (String × String))
    (hnohdr : ∀ line ∈ pySplit text '\n', pyStartsWith line headerText = false)
    (hname : strContains name (structure_key ++ PREDICTOR_KEY ++ "_") = true) :
    lddt_from_text text = .error .stopIteration ∧
    read_lddt_values structure_key ((name, text) :: rest)
      = .error .stopIteration := by
  have hfind : (pySplit text '\n').findIdx?
      (fun line => pyStartsWith line headerText) = none := by
    rw [List.findIdx?_eq_none_iff]
    exact hnohdr
  have h1 : lddt_from_text text = .error .stopIteration := by
    simp only [lddt_from_text]
    rw [hfind]
  refine ⟨h1, ?_⟩
  simp only [read_lddt_values, List.filter_cons, hname, if_true, List.foldlM_cons, h1]
  rfl

/-- Witness for `C6_amended`: a member with header-less content beside an
empty tail. -/
theorem C6_amended_witness :
    lddt_from_text "no header in this member" = .error .stopIteration ∧
    read_lddt_values "T1024"
      [("./T1024/T1024TS480_1.lddt", "no header in this member")]
      = .error .stopIteration :=
  C6_amended "no header in this member" "T1024" "./T1024/T1024TS480_1.lddt" []
    (by with_unfolding_all decide) (by with_unfolding_all decide)

theorem dictInsert_append {α : Type} (d : List (String × α)) (k : String) (v : α)
    (h : ∀ p ∈ d, p.1 ≠ k) : dictInsert d k v = d ++ [(k, v)] := by
  rw [dictInsert, if_neg]
  intro hc
  rw [List.any_eq_true] at hc
  obtain ⟨p, hp, hpk⟩ := hc
  exact h p hp (by simpa using hpk)

theorem sixFieldKeys_cons_of_ne (r : List String) (rs : List (List String))
    (h : r.length ≠ 6) : sixFieldKeys (r :: rs) = sixFieldKeys rs := by
  rw [sixFieldKeys, List.filterMap_cons, if_neg h]
  rfl

theorem sixFieldKeys_cons_of_eq (r : List String) (rs : List (List String))
    (h : r.length = 6) : sixFieldKeys (r :: rs) = keyOf r :: sixFieldKeys rs := by
  rw [sixFieldKeys, List.filterMap_cons, if_pos h]
  rfl

theorem mem_sixFieldKeys (r : List String) (rs : List (List String))
    (hr : r ∈ rs) (h6 : r.length = 6) : keyOf r ∈ sixFieldKeys rs := by
  rw [sixFieldKeys, List.mem_filterMap]
  exact ⟨r, hr, by rw [if_pos h6]⟩

theorem procRows_ok (rows : List (List String)) :
    ∀ (acc : List (String × ℚ)),
      (∀ r ∈ rows, WellFormedRow r) →
      (sixFieldKeys rows).Nodup →
      (∀ r ∈ rows, r.length = 6 → ∀ p ∈ acc, p.1 ≠ keyOf r) →
      procRows acc rows = .ok (acc ++ rows.filterMap scoreEntry?) := by
  induction rows with
  | nil =>
    intro acc _ _ _
    simp only [procRows, List.foldlM_nil, List.filterMap_nil, List.append_nil]
    rfl
  | cons r rs ih =>
    intro acc hwf hnd hfresh
    have hwr := hwf r (List.mem_cons_self r rs)
    rcases hwr with h1 | ⟨h6, hsc⟩
    · have hpr : procRow acc r = .ok acc := by rw [procRow, if_pos h1]
      have hsE : scoreEntry? r = none := by
        rw [scoreEntry?, if_neg]
        intro hc
        omega
      rw [procRows, List.foldlM_cons, hpr,
        show (r :: rs).filterMap scoreEntry? = rs.filterMap scoreEntry? from by
          rw [List.filterMap_cons, hsE]]
      refine ih acc (fun q hq => hwf q (List.mem_cons_of_mem r hq)) ?_
        (fun q hq hq6 => hfresh q (List.mem_cons_of_mem r hq) hq6)
      rwa [sixFieldKeys_cons_of_ne r rs (by omega)] at hnd
    · by_cases hdash : r.getD 5 "" = "-"
      · have hpr : procRow acc r = .ok acc := by
          rw [procRow, if_neg (by omega), if_neg (by omega), if_pos hdash]
        have hsE : scoreEntry? r = none := by
          rw [scoreEntry?, if_neg]
          intro hc
          exact hc.2 hdash
        rw [procRows, List.foldlM_cons, hpr,
          show (r :: rs).filterMap scoreEntry? = rs.filterMap scoreEntry? from by
            rw [List.filterMap_cons, hsE]]
        refine ih acc (fun q hq => hwf q (List.mem_cons_of_mem r hq)) ?_
          (fun q hq hq6 => hfresh q (List.mem_cons_of_mem r hq) hq6)
        rw [sixFieldKeys_cons_of_eq r rs h6] at hnd
        exact hnd.of_cons
      · obtain ⟨v, hv⟩ : ∃ v, parseDecimal? (r.getD 5 "") = some v := by
          rcases hsc with hsc | hsc
          · exact absurd hsc hdash
          · exact Option.isSome_iff_exists.mp hsc
        have hpr : procRow acc r = .ok (dictInsert acc (keyOf r) v) := by
          rw [procRow, if_neg (by omega), if_neg (by omega), if_neg hdash, hv]
          rfl
        have hins : dictInsert acc (keyOf r) v = acc ++ [(keyOf r, v)] :=
          dictInsert_append acc (keyOf r) v (fun p hp => hfresh r
            (List.mem_cons_self r rs) h6 p hp)
        have hsE : scoreEntry? r = some (keyOf r, v) := by
          rw [scoreEntry?, if_pos ⟨h6, hdash⟩, hv]
          rfl
        rw [sixFieldKeys_cons_of_eq r rs h6] at hnd
        have hkey_not : keyOf r ∉ sixFieldKeys rs := (List.nodup_cons.mp hnd).1
        have hfresh' : ∀ q ∈ rs, q.length = 6 →
            ∀ p ∈ acc ++ [(keyOf r, v)], p.1 ≠ keyOf q := by
          intro q hq hq6 p hp
          rcases List.mem_append.mp hp with hp | hp
          · exact hfresh q (List.mem_cons_of_mem r hq) hq6 p hp
          · rw [List.mem_singleton.mp hp]
            intro hc
            have hc' : keyOf r = keyOf q := hc
            refine hkey_not ?_
            rw [hc']
            exact mem_sixFieldKeys q rs hq hq6
        have hrec := ih (acc ++ [(keyOf r, v)])
          (fun q hq => hwf q (List.mem_cons_of_mem r hq)) hnd.of_cons hfresh'
        rw [procRows, List.foldlM_cons, hpr, hins, List.filterMap_cons, hsE]
        show procRows (acc ++ [(keyOf r, v)]) rs
            = .ok (acc ++ ((keyOf r, v) :: rs.filterMap scoreEntry?))
        rw [hrec, List.append_assoc]
        rfl

/-- C8: on a table whose rows after the header are well formed (blank or
six tab-separated fields with a sentinel or parseable score) and whose
six-field rows carry pairwise distinct residue keys, `lddt_from_text`
succeeds and returns exactly the map of the non-sentinel six-field rows:
each such row is present under its canonical key "{chain}/{resnum}-
{resname}" (columns 0/2/1) with its Score column (column 5) parsed as a
float, and a key occurs in the map iff some non-sentinel six-field row
carries it — so the sentinel rows (`Score == "-"`) are exactly the
omitted ones. -/
theorem C8_score_extractor (text : String) (i : ℕ)
    (hfind : (pySplit text '\n').findIdx?
        (fun line => pyStartsWith line headerText) = some i)
    (hwf : ∀ r ∈ rowsAfterHeader text i, WellFormedRow r)
    (hnd : (sixFieldKeys (rowsAfterHeader text i)).Nodup) :
    lddt_from_text text = .ok ((rowsAfterHeader text i).filterMap scoreEntry?) ∧
    (∀ r ∈ rowsAfterHeader text i, r.length = 6 → r.getD 5 "" ≠ "-" →
      ∀ v, parseDecimal? (r.getD 5 "") = some v →
        (keyOf r, v) ∈ (rowsAfterHeader text i).filterMap scoreEntry?) ∧
    (∀ k, k ∈ ((rowsAfterHeader text i).filterMap scoreEntry?).map Prod.fst ↔
      ∃ r ∈ rowsAfterHeader text i,
        r.length = 6 ∧ r.getD 5 "" ≠ "-" ∧ keyOf r = k) := by
  refine ⟨?_, ?_, ?_⟩
  · simp only [lddt_from_text]
    rw [hfind]
    exact procRows_ok (rowsAfterHeader text i) [] hwf hnd (fun r _ _ p hp => absurd hp
      (List.not_mem_nil p))
  · intro r hr h6 hd v hv
    refine List.mem_filterMap.mpr ⟨r, hr, ?_⟩
    rw [scoreEntry?, if_pos ⟨h6, hd⟩, hv]
    rfl
  · intro k
    constructor
    · intro hk
      obtain ⟨e, he, hek⟩ := List.mem_map.mp hk
      obtain ⟨r, hr, hre⟩ := List.mem_filterMap.mp he
      rw [scoreEntry?] at hre
      split at hre
      · rename_i hcond
        obtain ⟨v, _, hev⟩ := Option.map_eq_some'.mp hre
        refine ⟨r, hr, hcond.1, hcond.2, ?_⟩
        rw [← hev] at hek
        exact hek
      · cases hre
    · rintro ⟨r, hr, h6, hd, rfl⟩
      have hwr := hwf r hr
      obtain ⟨v, hv⟩ : ∃ v, parseDecimal? (r.getD 5 "") = some v := by
        rcases hwr with h1 | ⟨_, hsc⟩
        · omega
        · rcases hsc with hsc | hsc
          · exact absurd hsc hd
          · exact Option.isSome_iff_exists.mp hsc
      refine List.mem_map.mpr ⟨(keyOf r, v), ?_, rfl⟩
      refine List.mem_filterMap.mpr ⟨r, hr, ?_⟩
      rw [scoreEntry?, if_pos ⟨h6, hd⟩, hv]
      rfl

/-- Witness for `C8_score_extractor` on the concrete table `c8Text`: the
sentinel row `A/2-ALA` is omitted, both valid rows are present with their
parsed scores. -/
theorem C8_score_extractor_witness :
    lddt_from_text c8Text
        = .ok ((rowsAfterHeader c8Text 0).filterMap scoreEntry?) ∧
    (∀ r ∈ rowsAfterHeader c8Text 0, r.length = 6 → r.getD 5 "" ≠ "-" →
      ∀ v, parseDecimal? (r.getD 5 "") = some v →
        (keyOf r, v) ∈ (rowsAfterHeader c8Text 0).filterMap scoreEntry?) ∧
    (∀ k, k ∈ ((rowsAfterHeader c8Text 0).filterMap scoreEntry?).map Prod.fst ↔
      ∃ r ∈ rowsAfterHeader c8Text 0,
        r.length = 6 ∧ r.getD 5 "" ≠ "-" ∧ keyOf r = k) :=
  C8_score_extractor c8Text 0
    (by with_unfolding_all decide)
    (by with_unfolding_all decide)
    (by with_unfolding_all decide)

theorem runPredsAux_dict_agree (structure_key : String) (key2s : List String)
    (d1 d2 : List (String × List (String × ℚ))) :
    ∀ (preds : List (List ℚ)) (s : AggState) (idx : ℕ),
      (∀ i < preds.length,
        dictGet? d1 (predKey structure_key (idx + i))
          = dictGet? d2 (predKey structure_key (idx + i))) →
      runPredsAux d1 structure_key key2s s idx preds
        = runPredsAux d2 structure_key key2s s idx preds := by
  intro preds
  induction preds with
  | nil =>
    intro s idx _
    rfl
  | cons scores rest ih =>
    intro s idx hag
    have h0 := hag 0 (Nat.succ_pos _)
    rw [Nat.add_zero] at h0
    have hpp : processPrediction d1 (predKey structure_key idx) key2s scores s
        = processPrediction d2 (predKey structure_key idx) key2s scores s := by
      rw [processPrediction, processPrediction, collectLddt, collectLddt, h0]
    have hag' : ∀ i < rest.length,
        dictGet? d1 (predKey structure_key ((idx + 1) + i))
          = dictGet? d2 (predKey structure_key ((idx + 1) + i)) := by
      intro i hi
      have h := hag (i + 1) (by rw [List.length_cons]; omega)
      rwa [show idx + (i + 1) = (idx + 1) + i from by omega] at h
    rw [runPredsAux, runPredsAux, hpp]
    cases hp : processPrediction d2 (predKey structure_key idx) key2s scores s with
    | error e => rfl
    | ok pr =>
      obtain ⟨s1, evs⟩ := pr
      show ((runPredsAux d1 structure_key key2s s1 (idx + 1) rest).1,
          evs ++ (runPredsAux d1 structure_key key2s s1 (idx + 1) rest).2.1,
          (runPredsAux d1 structure_key key2s s1 (idx + 1) rest).2.2)
        = ((runPredsAux d2 structure_key key2s s1 (idx + 1) rest).1,
          evs ++ (runPredsAux d2 structure_key key2s s1 (idx + 1) rest).2.1,
          (runPredsAux d2 structure_key key2s s1 (idx + 1) rest).2.2)
      rw [ih s1 (idx + 1) hag']

/-- C10: the join between a prediction and its reference score table is
positional and 1-indexed, not by prediction identifier: the prediction at
0-based position `idx` of the structure's prediction list is looked up
under exactly the key `f"{structure_key}{PREDICTOR_KEY}_{idx+1}"` — the
loop's behavior depends on the lDDT dictionary only through the keys
`predKey structure_key (idx + i)` for the processed positions `i` — and
`read_lddt_values` parses exactly the archive members whose name contains
the substring `f"{structure_key}{PREDICTOR_KEY}_"` (filtering the member
list down to those members first changes nothing). -/
theorem C10_positional_join (structure_key : String)
    (members : List (String × String))
    (d1 d2 : List (String × List (String × ℚ)))
    (key2s : List String) (s : AggState) (idx : ℕ) (preds : List (List ℚ))
    (hag : ∀ i < preds.length,
      dictGet? d1 (predKey structure_key (idx + i))
        = dictGet? d2 (predKey structure_key (idx + i))) :
    runPredsAux d1 structure_key key2s s idx preds
        = runPredsAux d2 structure_key key2s s idx preds ∧
    read_lddt_values structure_key members
      = read_lddt_values structure_key (members.filter
          (fun m => strContains m.1 (structure_key ++ PREDICTOR_KEY ++ "_"))) ∧
    predKey structure_key idx
      = structure_key ++ PREDICTOR_KEY ++ "_" ++ toString (idx + 1) := by
  refine ⟨runPredsAux_dict_agree structure_key key2s d1 d2 preds s idx hag, ?_, rfl⟩
  have hff : (members.filter
      (fun m => strContains m.1 (structure_key ++ PREDICTOR_KEY ++ "_"))).filter
        (fun m => strContains m.1 (structure_key ++ PREDICTOR_KEY ++ "_"))
      = members.filter
          (fun m => strContains m.1 (structure_key ++ PREDICTOR_KEY ++ "_")) := by
    rw [List.filter_filter]
    simp [Bool.and_self]
  rw [read_lddt_values, read_lddt_values, hff]

/-- Witness for `C10_positional_join`: a dictionary pair agreeing on the
single consulted key, and a two-member archive with one matching and one
non-matching member name. -/
theorem C10_positional_join_witness :
    runPredsAux cexLddtDict "T1024" ["A/1-GLY"] initState 0 [[1/10]]
        = runPredsAux (cexLddtDict ++ [("ZZZ", [])]) "T1024" ["A/1-GLY"]
            initState 0 [[1/10]] ∧
    read_lddt_values "T1024"
        [("./T1024/T1024TS480_1.lddt",
          "Chain\tResName\tResNum\tAsses.\tQ.Prob.\tScore\nA\tGLY\t1\tx\ty\t0.5"),
         ("./T1024/T1024TS129_1.lddt", "other predictor, never parsed")]
      = read_lddt_values "T1024"
          ([("./T1024/T1024TS480_1.lddt",
             "Chain\tResName\tResNum\tAsses.\tQ.Prob.\tScore\nA\tGLY\t1\tx\ty\t0.5"),
            ("./T1024/T1024TS129_1.lddt", "other predictor, never parsed")].filter
            (fun m => strContains m.1 ("T1024" ++ PREDICTOR_KEY ++ "_"))) ∧
    predKey "T1024" 0 = "T1024" ++ PREDICTOR_KEY ++ "_" ++ toString (0 + 1) :=
  C10_positional_join "T1024"
    [("./T1024/T1024TS480_1.lddt",
      "Chain\tResName\tResNum\tAsses.\tQ.Prob.\tScore\nA\tGLY\t1\tx\ty\t0.5"),
     ("./T1024/T1024TS129_1.lddt", "other predictor, never parsed")]
    cexLddtDict (cexLddtDict ++ [("ZZZ", [])]) ["A/1-GLY"] initState 0 [[1/10]]
    (by with_unfolding_all decide)

end Casp

